import Mathlib

/-
Verification of the jvm-assembler core (src/classfile.rs and
src/class_builder.rs) against its natural-language specification.

The Rust sources are shallowly embedded: u16/u8 machine integers become
Nat with explicit `% 2 ^ 16` (respectively `% 2 ^ 8`) where the source
performs machine arithmetic (release-mode wrapping semantics, which is
the behaviour the specification describes for backward branches);
f32 payloads become their 32-bit patterns, compared with IEEE-754
equality as Rust's derived PartialEq does; the HashMap label table
becomes an association list whose insert prepends and whose lookup takes
the first hit (observationally the map's insert-overwrites semantics);
code paths that panic in Rust (unwrap on a missing label, the
load-constant range check, the unpatchable-instruction arm) become
Except with an explicit error taxonomy.
-/

namespace JvmAsm

/-- Verification type tags, from classfile.rs (enum VerificationType). -/
inductive VerificationType where
  | Top
  | Integer
  | Float
  | Long
  | Double
  | Null
  | UninitializedThis
  | Object (idx : Nat)
  | Uninitialized (idx : Nat)
deriving DecidableEq

/-- Stack-map frame kinds, from classfile.rs (enum StackMapFrame).
All seven schema variants are present, including the three (Chop,
Append, Full) the assembler never constructs. -/
inductive StackMapFrame where
  | SameFrame (delta : Nat)
  | SameLocals1StackItemFrame (delta : Nat) (t : VerificationType)
  | SameLocals1StackItemFrameExtended (delta : Nat) (t : VerificationType)
  | ChopFrame (k : Nat) (delta : Nat)
  | SameFrameExtended (delta : Nat)
  | AppendFrame (k : Nat) (delta : Nat) (ts : List VerificationType)
  | FullFrame (delta : Nat) (locals stack : List VerificationType)
deriving DecidableEq

/-- Modelled from the spec: instruction opcodes.  The variants up to
`ArrayLength` are from classfile.rs (enum Instruction).  class_builder.rs
additionally emits reference-local, object-construction, float-arithmetic
and conversion opcodes (`New`, `Dup`, `I2F`, `F2I`, `Irem`, `Frem`,
`Fadd`..`Fdiv`, `AConstNull`, `Astore*`, `Aload(u8)`, `Areturn`) that are
missing from classfile.rs's enum; those are modelled from the spec's
public-surface list (spec section 4.2). -/
inductive Instruction where
  | Fload0
  | Fload1
  | Fload2
  | Fload3
  | Fload (n : Nat)
  | Fstore0
  | Fstore1
  | Fstore2
  | Fstore3
  | Fstore (n : Nat)
  | Fconst0
  | Fconst1
  | Fconst2
  | FReturn
  | I2C
  | IconstM1
  | Iconst0
  | Iconst1
  | Iconst2
  | Iconst3
  | Iconst4
  | Iconst5
  | Istore0
  | Istore1
  | Istore2
  | Istore3
  | Istore (n : Nat)
  | Bipush (n : Nat)
  | Sipush (a b : Nat)
  | Iload0
  | Iload1
  | Iload2
  | Iload3
  | Iload (n : Nat)
  | LoadConstant (n : Nat)
  | Aload0
  | Aload1
  | Aload2
  | Aload3
  | Aaload
  | Iadd
  | Isub
  | Imul
  | Idiv
  | IfEq (off : Nat)
  | IfNe (off : Nat)
  | IfLt (off : Nat)
  | IfGe (off : Nat)
  | IfGt (off : Nat)
  | IfLe (off : Nat)
  | IfIcmpEq (off : Nat)
  | IfIcmpNe (off : Nat)
  | IfIcmpLt (off : Nat)
  | IfIcmpGe (off : Nat)
  | IfIcmpGt (off : Nat)
  | IfIcmpLe (off : Nat)
  | Goto (off : Nat)
  | IReturn
  | Return
  | GetStatic (idx : Nat)
  | InvokeVirtual (idx : Nat)
  | InvokeSpecial (idx : Nat)
  | InvokeStatic (idx : Nat)
  | ArrayLength
  | New (a b : Nat)
  | Dup
  | I2F
  | F2I
  | Irem
  | Frem
  | Fadd
  | Fsub
  | Fmul
  | Fdiv
  | AConstNull
  | Astore0
  | Astore1
  | Astore2
  | Astore3
  | Astore (n : Nat)
  | Aload (n : Nat)
  | Areturn

/-- Encoded byte size of each opcode, from classfile.rs
(Instruction::size).  Sizes of the variants that classfile.rs's size
table does not cover (the ones missing from its enum) follow the spec's
fixed, opcode-determined 1-3 byte rule: one byte per opcode plus one
byte per immediate-operand field the variant carries. -/
def Instruction.size : Instruction → Nat
  | .Fload0 => 1
  | .Fload1 => 1
  | .Fload2 => 1
  | .Fload3 => 1
  | .Fload _ => 2
  | .Fstore0 => 1
  | .Fstore1 => 1
  | .Fstore2 => 1
  | .Fstore3 => 1
  | .Fstore _ => 2
  | .Fconst0 => 1
  | .Fconst1 => 1
  | .Fconst2 => 1
  | .FReturn => 1
  | .I2C => 1
  | .IconstM1 => 1
  | .Iconst0 => 1
  | .Iconst1 => 1
  | .Iconst2 => 1
  | .Iconst3 => 1
  | .Iconst4 => 1
  | .Iconst5 => 1
  | .Istore0 => 1
  | .Istore1 => 1
  | .Istore2 => 1
  | .Istore3 => 1
  | .Istore _ => 2
  | .Bipush _ => 2
  | .Sipush _ _ => 3
  | .Iload0 => 1
  | .Iload1 => 1
  | .Iload2 => 1
  | .Iload3 => 1
  | .Iload _ => 2
  | .LoadConstant _ => 2
  | .Aload0 => 1
  | .Aload1 => 1
  | .Aload2 => 1
  | .Aload3 => 1
  | .Aaload => 1
  | .Iadd => 1
  | .Isub => 1
  | .Imul => 1
  | .Idiv => 1
  | .IfEq _ => 3
  | .IfNe _ => 3
  | .IfLt _ => 3
  | .IfGe _ => 3
  | .IfGt _ => 3
  | .IfLe _ => 3
  | .IfIcmpEq _ => 3
  | .IfIcmpNe _ => 3
  | .IfIcmpLt _ => 3
  | .IfIcmpGe _ => 3
  | .IfIcmpGt _ => 3
  | .IfIcmpLe _ => 3
  | .Goto _ => 3
  | .IReturn => 1
  | .Return => 1
  | .GetStatic _ => 3
  | .InvokeVirtual _ => 3
  | .InvokeSpecial _ => 3
  | .InvokeStatic _ => 3
  | .ArrayLength => 1
  | .New _ _ => 3
  | .Dup => 1
  | .I2F => 1
  | .F2I => 1
  | .Irem => 1
  | .Frem => 1
  | .Fadd => 1
  | .Fsub => 1
  | .Fmul => 1
  | .Fdiv => 1
  | .AConstNull => 1
  | .Astore0 => 1
  | .Astore1 => 1
  | .Astore2 => 1
  | .Astore3 => 1
  | .Astore _ => 2
  | .Aload _ => 2
  | .Areturn => 1

/-- Constant-pool entry kinds, from classfile.rs (enum Constant).  The
f32 payload of `Float` is embedded as its 32-bit pattern; i32 payloads
as Int (structural equality on i32 is structural on Int). -/
inductive Constant where
  | Utf8 (s : String)
  | Integer (n : Int)
  | Float (bits : Nat)
  | Class (nameIdx : Nat)
  | String (valueIdx : Nat)
  | Fieldref (classIdx ntIdx : Nat)
  | Methodref (classIdx ntIdx : Nat)
  | NameAndType (nameIdx descIdx : Nat)
deriving DecidableEq

/-- An f32 bit pattern is a NaN when its exponent field is all ones and
its mantissa is nonzero. -/
def isNanBits (b : Nat) : Bool :=
  decide ((b >>> 23) % 256 = 255) && decide (b % 8388608 ≠ 0)

/-- An f32 bit pattern denotes a (positive or negative) zero when all
bits except the sign are clear. -/
def isZeroBits (b : Nat) : Bool :=
  decide (b % 2147483648 = 0)

/-- IEEE-754 equality on f32 bit patterns, the comparison Rust's `==`
on f32 performs: any NaN compares unequal to everything (itself
included), the two zeroes compare equal, and otherwise equality is
bitwise. -/
def f32Beq (a b : Nat) : Bool :=
  if isNanBits a || isNanBits b then false
  else if isZeroBits a && isZeroBits b then true
  else decide (a = b)

/-- Structural equality of pool entries as Rust's derived PartialEq on
Constant computes it: componentwise, with IEEE-754 equality on the f32
payload. -/
def constantEq : Constant → Constant → Bool
  | .Utf8 a, .Utf8 b => decide (a = b)
  | .Integer a, .Integer b => decide (a = b)
  | .Float a, .Float b => f32Beq a b
  | .Class a, .Class b => decide (a = b)
  | .String a, .String b => decide (a = b)
  | .Fieldref a b, .Fieldref c d => decide (a = c) && decide (b = d)
  | .Methodref a b, .Methodref c d => decide (a = c) && decide (b = d)
  | .NameAndType a b, .NameAndType c d => decide (a = c) && decide (b = d)
  | _, _ => false

/-- Attributes, from classfile.rs (enum Attribute).  The empty
exception table is a list of the unit ExceptionTableEntry struct;
LineNumberTable entries are (start pc, line number) pairs. -/
inductive Attribute where
  | Code (nameIdx maxStack maxLocals : Nat) (code : List Instruction)
      (exceptionTable : List Unit) (attrs : List Attribute)
  | LineNumberTable (nameIdx : Nat) (entries : List (Nat × Nat))
  | SourceFile (a b : Nat)
  | StackMapTable (nameIdx : Nat) (frames : List StackMapFrame)

/-- Methods, from classfile.rs (struct Method). -/
structure Method where
  access_flags : Nat
  name_index : Nat
  descriptor_index : Nat
  attributes : List Attribute

/-- The fatal error taxonomy of spec section 7.  UnresolvedLabel models
the unwrap on a missing label-table key in MethodBuilder::done;
UnpatchableInstructionShape models the catch-all arm of fill_offset;
ConstantPoolOverflow models the index-range check in the load_constant
family. -/
inductive JvmError where
  | UnresolvedLabel
  | UnpatchableInstructionShape
  | ConstantPoolOverflow
deriving DecidableEq

/-- The linear scan of ClassBuilder::push_constant: walk the pool with a
1-based u16 counter, returning the counter at the first entry equal to
the candidate.  The counter is a u16 in the source, hence the mod. -/
def findConstant (c : Constant) : List Constant → Nat → Option Nat
  | [], _ => none
  | x :: xs, i => if constantEq c x then some (i % 65536) else findConstant c xs (i + 1)

/-- ClassBuilder::push_constant: return the index of a structurally
equal existing entry, or append and return the new length as u16. -/
def push_constant (c : Constant) (pool : List Constant) : Nat × List Constant :=
  match findConstant c pool 1 with
  | some i => (i, pool)
  | none => ((pool.length + 1) % 65536, pool ++ [c])

/-- The class-level builder state, from class_builder.rs
(struct ClassBuilder). -/
structure ClassBuilder where
  access_flags : Nat
  this_class_index : Nat
  super_class_index : Nat
  constants : List Constant
  methods : List Method

/-- ClassBuilder::define_integer. -/
def define_integer (n : Int) (cb : ClassBuilder) : Nat × ClassBuilder :=
  let r := push_constant (.Integer n) cb.constants
  (r.1, { cb with constants := r.2 })

/-- ClassBuilder::define_float (the f32 payload as its bit pattern). -/
def define_float (bits : Nat) (cb : ClassBuilder) : Nat × ClassBuilder :=
  let r := push_constant (.Float bits) cb.constants
  (r.1, { cb with constants := r.2 })

/-- ClassBuilder::define_utf8. -/
def define_utf8 (s : String) (cb : ClassBuilder) : Nat × ClassBuilder :=
  let r := push_constant (.Utf8 s) cb.constants
  (r.1, { cb with constants := r.2 })

/-- ClassBuilder::define_class: intern the name string first, then the
class entry referencing it. -/
def define_class (name : String) (cb : ClassBuilder) : Nat × ClassBuilder :=
  let r1 := define_utf8 name cb
  let r2 := push_constant (.Class r1.1) r1.2.constants
  (r2.1, { r1.2 with constants := r2.2 })

/-- ClassBuilder::define_string: intern the value string first, then
the string entry referencing it. -/
def define_string (value : String) (cb : ClassBuilder) : Nat × ClassBuilder :=
  let r1 := define_utf8 value cb
  let r2 := push_constant (.String r1.1) r1.2.constants
  (r2.1, { r1.2 with constants := r2.2 })

/-- ClassBuilder::define_name_and_type.  The descriptor string has
already been rendered by the external descriptor-formatting
collaborator. -/
def define_name_and_type (name descriptor : String) (cb : ClassBuilder) :
    Nat × ClassBuilder :=
  let r1 := define_utf8 name cb
  let r2 := define_utf8 descriptor r1.2
  let r3 := push_constant (.NameAndType r1.1 r2.1) r2.2.constants
  (r3.1, { r2.2 with constants := r3.2 })

/-- Modelled from the spec: ClassBuilder::define_fieldref.  The
descriptor text produced by the out-of-scope java_type_signatures
collaborator is taken as a caller-supplied string. -/
def define_fieldref (cls name descriptor : String) (cb : ClassBuilder) :
    Nat × ClassBuilder :=
  let r1 := define_class cls cb
  let r2 := define_name_and_type name descriptor r1.2
  let r3 := push_constant (.Fieldref r1.1 r2.1) r2.2.constants
  (r3.1, { r2.2 with constants := r3.2 })

/-- Modelled from the spec: ClassBuilder::define_methodref.  The method
descriptor text produced by the out-of-scope method_signature
collaborator is taken as a caller-supplied string. -/
def define_methodref (cls name descriptor : String) (cb : ClassBuilder) :
    Nat × ClassBuilder :=
  let r1 := define_class cls cb
  let r2 := define_name_and_type name descriptor r1.2
  let r3 := push_constant (.Methodref r1.1 r2.1) r2.2.constants
  (r3.1, { r2.2 with constants := r3.2 })

/-- ClassBuilder::new: start with an empty pool and intern the this-
and super-class references. -/
def ClassBuilder.new (accessFlags : Nat) (thisClass superClass : String) :
    ClassBuilder :=
  let b0 : ClassBuilder := ⟨accessFlags, 0, 0, [], []⟩
  let r1 := define_class thisClass b0
  let r2 := define_class superClass r1.2
  { r2.2 with this_class_index := r1.1, super_class_index := r2.1 }

/-- Pending-vs-resolved instructions, from class_builder.rs
(enum IntermediateInstruction).  A Waiting entry carries the label
name, the environment active at emission time, and the un-patched
instruction shape. -/
inductive IntermediateInstruction where
  | Ready (instr : Instruction)
  | Waiting (label : String) (env : Nat) (instr : Instruction)

/-- Encoded size of an intermediate instruction (the size of the
carried instruction; patching never changes the shape). -/
def interSize : IntermediateInstruction → Nat
  | .Ready i => i.size
  | .Waiting _ _ i => i.size

/-- The per-method assembler state, from class_builder.rs
(struct MethodBuilder).  The exclusive borrow of the class builder is
embedded by value. -/
structure MethodBuilder where
  classfile : ClassBuilder
  access_flags : Nat
  name_index : Nat
  descriptor_index : Nat
  instructions : List (Nat × IntermediateInstruction)
  labels : List ((String × Nat) × Nat)
  stack_index : Nat
  curr_stack_depth : Nat
  max_stack_depth : Nat
  stack_frames : List StackMapFrame
  last_stack_frame_index : Option Nat
  num_locals : Nat
  stack_types : List VerificationType
  env_num : Nat
  env_count : Nat

/-- Modelled from the spec: MethodBuilder::new.  The descriptor text
rendered by the out-of-scope method_signature collaborator is taken as
a caller-supplied string; num_locals starts at the number of declared
argument types, passed as numArgs. -/
def MethodBuilder.new (cb : ClassBuilder) (accessFlags : Nat)
    (name descriptor : String) (numArgs : Nat) : MethodBuilder :=
  let r1 := define_utf8 name cb
  let r2 := define_utf8 descriptor r1.2
  { classfile := r2.2
    access_flags := accessFlags
    name_index := r1.1
    descriptor_index := r2.1
    instructions := []
    labels := []
    stack_index := 0
    curr_stack_depth := 0
    max_stack_depth := 0
    stack_frames := []
    last_stack_frame_index := none
    num_locals := numArgs % 65536
    stack_types := []
    env_num := 0
    env_count := 0 }

/-- Wrapping u16 subtraction, the release-mode semantics of `a - b` on
u16 operands below 2 ^ 16. -/
def wsub (a b : Nat) : Nat := (a + 65536 - b) % 65536

/-- MethodBuilder::push_instruction: record the instruction at the
current byte cursor and advance the cursor by its fixed size (the
cursor is a u16). -/
def pushInstr (i : Instruction) (s : MethodBuilder) : MethodBuilder :=
  { s with
    instructions := s.instructions ++ [(s.stack_index, .Ready i)]
    stack_index := (s.stack_index + i.size) % 65536 }

/-- MethodBuilder::delay_instruction: record a pending branch carrying
the label name and the environment active now, and advance the cursor
by the instruction's fixed size. -/
def delayInstr (l : String) (i : Instruction) (s : MethodBuilder) : MethodBuilder :=
  { s with
    instructions := s.instructions ++ [(s.stack_index, .Waiting l s.env_num i)]
    stack_index := (s.stack_index + i.size) % 65536 }

/-- Push onto the tracked verification-type record (Vec::push on
stack_types). -/
def pushType (t : VerificationType) (s : MethodBuilder) : MethodBuilder :=
  { s with stack_types := s.stack_types ++ [t] }

/-- MethodBuilder::increase_locals: the u16 locals counter grows by one
per store, with no notion of slot reuse. -/
def incLocals (s : MethodBuilder) : MethodBuilder :=
  { s with num_locals := (s.num_locals + 1) % 65536 }

/-- MethodBuilder::increase_stack_depth: the hook's body is entirely
commented out in the source, so it is the identity. -/
def increaseStackDepth (s : MethodBuilder) : MethodBuilder := s

/-- MethodBuilder::decrease_stack_depth: the hook's body is entirely
commented out in the source, so it is the identity. -/
def decreaseStackDepth (s : MethodBuilder) : MethodBuilder := s

/-- MethodBuilder::decrease_stack_depth_by: the hook's body is entirely
commented out in the source, so it is the identity. -/
def decreaseStackDepthBy (_n : Nat) (s : MethodBuilder) : MethodBuilder := s

/-- Label-table lookup on the (name, environment) compound key; the
association list is prepended on insert, so the first hit is the
HashMap's current binding. -/
def lookupLabel (labels : List ((String × Nat) × Nat)) (l : String) (e : Nat) :
    Option Nat :=
  match labels with
  | [] => none
  | (k, v) :: rest => if k = (l, e) then some v else lookupLabel rest l e

/-- MethodBuilder::label: bind (name, active environment) to the
current cursor, then append exactly one stack-map frame.  The recorded
delta is the cursor for the first frame and cursor - previous - 1
(u16 arithmetic) afterwards; the compact forms are chosen when the
delta fits in 8 bits, and the single-stack-item analogues when a
verification type is live on top of stack_types. -/
def labelOp (name : String) (s : MethodBuilder) : MethodBuilder :=
  let labels' := ((name, s.env_num), s.stack_index) :: s.labels
  let offset :=
    match s.last_stack_frame_index with
    | some i => wsub (wsub s.stack_index i) 1
    | none => s.stack_index
  let frame :=
    match s.stack_types.getLast? with
    | none =>
      if 255 < offset then StackMapFrame.SameFrameExtended offset
      else StackMapFrame.SameFrame offset
    | some t =>
      if 255 < offset then StackMapFrame.SameLocals1StackItemFrameExtended offset t
      else StackMapFrame.SameLocals1StackItemFrame offset t
  { s with
    labels := labels'
    stack_frames := s.stack_frames ++ [frame]
    last_stack_frame_index := some s.stack_index }

/-- The public operation surface of MethodBuilder, one constructor per
public method of class_builder.rs.  Immediate-operand bytes are carried
already cast to their stored byte values; the interning operations
carry the descriptor strings the external formatting collaborator would
produce, plus the argument count and return-void flag the source reads
off the type lists. -/
inductive Op where
  | new_env
  | set_env (n : Nat)
  | set_new_env
  | nyew (className : String)
  | dup
  | i2c
  | i2f
  | f2i
  | irem
  | frem
  | iconstm1
  | iconst0
  | iconst1
  | iconst2
  | iconst3
  | iconst4
  | iconst5
  | istore0
  | istore1
  | istore2
  | istore3
  | istore (idx : Nat)
  | fconst0
  | fconst1
  | fconst2
  | fstore0
  | fstore1
  | fstore2
  | fstore3
  | fstore (idx : Nat)
  | fload0
  | fload1
  | fload2
  | fload3
  | fload (reg : Nat)
  | fadd
  | fsub
  | fmul
  | fdiv
  | bipush (v : Nat)
  | sipush (a b : Nat)
  | iload0
  | iload1
  | iload2
  | iload3
  | iload (reg : Nat)
  | load_constant (v : String)
  | load_constant_integer (v : Int)
  | load_constant_float (bits : Nat)
  | aconst_null
  | astore0
  | astore1
  | astore2
  | astore3
  | astore (reg : Nat)
  | aload0
  | aload1
  | aload2
  | aload3
  | aload (reg : Nat)
  | aaload
  | iadd
  | isub
  | imul
  | idiv
  | ifeq (l : String)
  | ifne (l : String)
  | iflt (l : String)
  | ifge (l : String)
  | ifgt (l : String)
  | ifle (l : String)
  | if_icmp_eq (l : String)
  | if_icmp_ne (l : String)
  | if_icmp_lt (l : String)
  | if_icmp_ge (l : String)
  | if_icmp_gt (l : String)
  | if_icmp_le (l : String)
  | goto (l : String)
  | ireturn
  | freturn
  | do_return
  | areturn
  | get_static (cls name descriptor : String)
  | invoke_virtual (cls name descriptor : String) (nargs : Nat) (retVoid : Bool)
  | invoke_special (cls name descriptor : String) (nargs : Nat) (retVoid : Bool)
  | invoke_static (cls name descriptor : String) (nargs : Nat) (retVoid : Bool)
  | array_length
  | label (name : String)

/-- One public call on the method assembler, translated arm by arm from
class_builder.rs.  The load_constant family checks the interned index
against the 8-bit bound and aborts (ConstantPoolOverflow) exactly where
the source does; every other operation succeeds. -/
def step (o : Op) (s : MethodBuilder) : Except JvmError MethodBuilder :=
  match o with
  | .new_env => .ok { s with env_count := (s.env_count + 1) % 65536 }
  | .set_env n => .ok { s with env_num := n % 65536 }
  | .set_new_env =>
    .ok { s with env_count := (s.env_count + 1) % 65536,
                 env_num := (s.env_count + 1) % 65536 }
  | .nyew cn =>
    .ok (increaseStackDepth (pushInstr
      (.New (((define_class cn s.classfile).1 >>> 8) % 256)
            (((define_class cn s.classfile).1 ||| 255) % 256))
      { s with classfile := (define_class cn s.classfile).2 }))
  | .dup => .ok (increaseStackDepth (pushInstr .Dup s))
  | .i2c => .ok (pushInstr .I2C s)
  | .i2f => .ok (pushInstr .I2F s)
  | .f2i => .ok (pushInstr .F2I s)
  | .irem => .ok (decreaseStackDepth (pushInstr .Irem s))
  | .frem => .ok (decreaseStackDepth (pushInstr .Frem s))
  | .iconstm1 => .ok (pushType .Integer (increaseStackDepth (pushInstr .IconstM1 s)))
  | .iconst0 => .ok (pushType .Integer (increaseStackDepth (pushInstr .Iconst0 s)))
  | .iconst1 => .ok (pushType .Integer (increaseStackDepth (pushInstr .Iconst1 s)))
  | .iconst2 => .ok (pushType .Integer (increaseStackDepth (pushInstr .Iconst2 s)))
  | .iconst3 => .ok (pushType .Integer (increaseStackDepth (pushInstr .Iconst3 s)))
  | .iconst4 => .ok (pushType .Integer (increaseStackDepth (pushInstr .Iconst4 s)))
  | .iconst5 => .ok (pushType .Integer (increaseStackDepth (pushInstr .Iconst5 s)))
  | .istore0 => .ok (incLocals (decreaseStackDepth (pushInstr .Istore0 s)))
  | .istore1 => .ok (incLocals (decreaseStackDepth (pushInstr .Istore1 s)))
  | .istore2 => .ok (incLocals (decreaseStackDepth (pushInstr .Istore2 s)))
  | .istore3 => .ok (incLocals (decreaseStackDepth (pushInstr .Istore3 s)))
  | .istore idx => .ok (incLocals (decreaseStackDepth (pushInstr (.Istore idx) s)))
  | .fconst0 => .ok (increaseStackDepth (pushInstr .Fconst0 s))
  | .fconst1 => .ok (increaseStackDepth (pushInstr .Fconst1 s))
  | .fconst2 => .ok (increaseStackDepth (pushInstr .Fconst2 s))
  | .fstore0 => .ok (incLocals (decreaseStackDepth (pushInstr .Fstore0 s)))
  | .fstore1 => .ok (incLocals (decreaseStackDepth (pushInstr .Fstore1 s)))
  | .fstore2 => .ok (incLocals (decreaseStackDepth (pushInstr .Fstore2 s)))
  | .fstore3 => .ok (incLocals (decreaseStackDepth (pushInstr .Fstore3 s)))
  | .fstore idx => .ok (incLocals (decreaseStackDepth (pushInstr (.Fstore idx) s)))
  | .fload0 => .ok (increaseStackDepth (pushInstr .Fload0 s))
  | .fload1 => .ok (increaseStackDepth (pushInstr .Fload1 s))
  | .fload2 => .ok (increaseStackDepth (pushInstr .Fload2 s))
  | .fload3 => .ok (increaseStackDepth (pushInstr .Fload3 s))
  | .fload reg => .ok (increaseStackDepth (pushInstr (.Fload reg) s))
  | .fadd => .ok (decreaseStackDepth (pushInstr .Fadd s))
  | .fsub => .ok (decreaseStackDepth (pushInstr .Fsub s))
  | .fmul => .ok (decreaseStackDepth (pushInstr .Fmul s))
  | .fdiv => .ok (decreaseStackDepth (pushInstr .Fdiv s))
  | .bipush v => .ok (pushType .Integer (increaseStackDepth (pushInstr (.Bipush v) s)))
  | .sipush a b =>
    .ok (pushType .Integer (increaseStackDepth (pushInstr (.Sipush a b) s)))
  | .iload0 => .ok (pushType .Integer (increaseStackDepth (pushInstr .Iload0 s)))
  | .iload1 => .ok (pushType .Integer (increaseStackDepth (pushInstr .Iload1 s)))
  | .iload2 => .ok (pushType .Integer (increaseStackDepth (pushInstr .Iload2 s)))
  | .iload3 => .ok (pushType .Integer (increaseStackDepth (pushInstr .Iload3 s)))
  | .iload reg => .ok (pushType .Integer (increaseStackDepth (pushInstr (.Iload reg) s)))
  | .load_constant v =>
    if 255 < (define_string v s.classfile).1 then .error .ConstantPoolOverflow
    else .ok (increaseStackDepth (pushInstr (.LoadConstant (define_string v s.classfile).1)
      { s with classfile := (define_string v s.classfile).2 }))
  | .load_constant_integer v =>
    if 255 < (define_integer v s.classfile).1 then .error .ConstantPoolOverflow
    else .ok (pushType .Integer (increaseStackDepth
      (pushInstr (.LoadConstant (define_integer v s.classfile).1)
        { s with classfile := (define_integer v s.classfile).2 })))
  | .load_constant_float bits =>
    if 255 < (define_float bits s.classfile).1 then .error .ConstantPoolOverflow
    else .ok (increaseStackDepth (pushInstr (.LoadConstant (define_float bits s.classfile).1)
      { s with classfile := (define_float bits s.classfile).2 }))
  | .aconst_null => .ok (increaseStackDepth (pushInstr .AConstNull s))
  | .astore0 => .ok (increaseStackDepth (pushInstr .Astore0 s))
  | .astore1 => .ok (increaseStackDepth (pushInstr .Astore1 s))
  | .astore2 => .ok (increaseStackDepth (pushInstr .Astore2 s))
  | .astore3 => .ok (increaseStackDepth (pushInstr .Astore3 s))
  | .astore reg => .ok (increaseStackDepth (pushInstr (.Astore reg) s))
  | .aload0 => .ok (increaseStackDepth (pushInstr .Aload0 s))
  | .aload1 => .ok (increaseStackDepth (pushInstr .Aload1 s))
  | .aload2 => .ok (increaseStackDepth (pushInstr .Aload2 s))
  | .aload3 => .ok (increaseStackDepth (pushInstr .Aload3 s))
  | .aload reg => .ok (increaseStackDepth (pushInstr (.Aload reg) s))
  | .aaload => .ok (decreaseStackDepth (pushInstr .Aaload s))
  | .iadd => .ok (decreaseStackDepth (pushInstr .Iadd s))
  | .isub => .ok (decreaseStackDepth (pushInstr .Isub s))
  | .imul => .ok (decreaseStackDepth (pushInstr .Imul s))
  | .idiv => .ok (decreaseStackDepth (pushInstr .Idiv s))
  | .ifeq l => .ok (decreaseStackDepth (delayInstr l (.IfEq 0) s))
  | .ifne l => .ok (decreaseStackDepth (delayInstr l (.IfNe 0) s))
  | .iflt l => .ok (decreaseStackDepth (delayInstr l (.IfLt 0) s))
  | .ifge l => .ok (decreaseStackDepth (delayInstr l (.IfGe 0) s))
  | .ifgt l => .ok (decreaseStackDepth (delayInstr l (.IfGt 0) s))
  | .ifle l => .ok (decreaseStackDepth (delayInstr l (.IfLe 0) s))
  | .if_icmp_eq l => .ok (decreaseStackDepthBy 2 (delayInstr l (.IfIcmpEq 0) s))
  | .if_icmp_ne l => .ok (decreaseStackDepthBy 2 (delayInstr l (.IfIcmpNe 0) s))
  | .if_icmp_lt l => .ok (decreaseStackDepthBy 2 (delayInstr l (.IfIcmpLt 0) s))
  | .if_icmp_ge l => .ok (decreaseStackDepthBy 2 (delayInstr l (.IfIcmpGe 0) s))
  | .if_icmp_gt l => .ok (decreaseStackDepthBy 2 (delayInstr l (.IfIcmpGt 0) s))
  | .if_icmp_le l => .ok (decreaseStackDepthBy 2 (delayInstr l (.IfIcmpLe 0) s))
  | .goto l => .ok (delayInstr l (.Goto 0) s)
  | .ireturn => .ok (decreaseStackDepth (pushInstr .IReturn s))
  | .freturn => .ok (decreaseStackDepth (pushInstr .FReturn s))
  | .do_return => .ok (pushInstr .Return s)
  | .areturn => .ok (pushInstr .Areturn s)
  | .get_static cls nm desc =>
    .ok (increaseStackDepth (pushInstr
      (.GetStatic (define_fieldref cls nm desc s.classfile).1)
      { s with classfile := (define_fieldref cls nm desc s.classfile).2 }))
  | .invoke_virtual cls nm desc nargs retVoid =>
    .ok ((if retVoid then id else increaseStackDepth) (decreaseStackDepthBy (nargs + 1)
      (pushInstr (.InvokeVirtual (define_methodref cls nm desc s.classfile).1)
        { s with classfile := (define_methodref cls nm desc s.classfile).2 })))
  | .invoke_special cls nm desc nargs retVoid =>
    .ok ((if retVoid then id else increaseStackDepth) (decreaseStackDepthBy (nargs + 1)
      (pushInstr (.InvokeSpecial (define_methodref cls nm desc s.classfile).1)
        { s with classfile := (define_methodref cls nm desc s.classfile).2 })))
  | .invoke_static cls nm desc nargs retVoid =>
    .ok ((if retVoid then id else increaseStackDepth) (decreaseStackDepthBy nargs
      (pushInstr (.InvokeStatic (define_methodref cls nm desc s.classfile).1)
        { s with classfile := (define_methodref cls nm desc s.classfile).2 })))
  | .array_length => .ok (pushInstr .ArrayLength s)
  | .label name => .ok (labelOp name s)

/-- Run a sequence of public calls, stopping at the first fatal
condition (every failure is an immediate, unrecoverable abort). -/
def run : List Op → MethodBuilder → Except JvmError MethodBuilder
  | [], s => .ok s
  | o :: os, s =>
    match step o s with
    | .ok s' => run os s'
    | .error e => .error e

/-- fill_offset, from class_builder.rs: rewrite the branch operand of a
branch-bearing variant; none for every shape without a branch operand
(the source's catch-all panic arm). -/
def fillOffset (i : Instruction) (offset : Nat) : Option Instruction :=
  match i with
  | .IfEq _ => some (.IfEq offset)
  | .IfNe _ => some (.IfNe offset)
  | .IfLt _ => some (.IfLt offset)
  | .IfGe _ => some (.IfGe offset)
  | .IfGt _ => some (.IfGt offset)
  | .IfLe _ => some (.IfLe offset)
  | .IfIcmpEq _ => some (.IfIcmpEq offset)
  | .IfIcmpNe _ => some (.IfIcmpNe offset)
  | .IfIcmpLt _ => some (.IfIcmpLt offset)
  | .IfIcmpGe _ => some (.IfIcmpGe offset)
  | .IfIcmpGt _ => some (.IfIcmpGt offset)
  | .IfIcmpLe _ => some (.IfIcmpLe offset)
  | .Goto _ => some (.Goto offset)
  | _ => none

/-- The 16-bit branch operand carried by a branch-bearing variant. -/
def branchOperand : Instruction → Option Nat
  | .IfEq o => some o
  | .IfNe o => some o
  | .IfLt o => some o
  | .IfGe o => some o
  | .IfGt o => some o
  | .IfLe o => some o
  | .IfIcmpEq o => some o
  | .IfIcmpNe o => some o
  | .IfIcmpLt o => some o
  | .IfIcmpGe o => some o
  | .IfIcmpGt o => some o
  | .IfIcmpLe o => some o
  | .Goto o => some o
  | _ => none

/-- The branch-bearing instruction shapes (the ones fill_offset can
patch). -/
def isBranch (i : Instruction) : Bool :=
  match i with
  | .IfEq _ | .IfNe _ | .IfLt _ | .IfGe _ | .IfGt _ | .IfLe _
  | .IfIcmpEq _ | .IfIcmpNe _ | .IfIcmpLt _ | .IfIcmpGe _
  | .IfIcmpGt _ | .IfIcmpLe _ | .Goto _ => true
  | _ => false

/-- Resolution of one intermediate instruction inside
MethodBuilder::done: a Ready instruction passes through; a Waiting one
looks up (label, emission environment), fails fatally on a miss, and
otherwise patches the operand with the wrapping u16 difference
target - position. -/
def resolveOne (labels : List ((String × Nat) × Nat))
    (x : Nat × IntermediateInstruction) : Except JvmError Instruction :=
  match x with
  | (_, .Ready i) => .ok i
  | (pos, .Waiting l e i) =>
    match lookupLabel labels l e with
    | none => .error .UnresolvedLabel
    | some t =>
      match fillOffset i (wsub t pos) with
      | none => .error .UnpatchableInstructionShape
      | some i' => .ok i'

/-- The eager map inside MethodBuilder::done resolving every recorded
instruction in order, stopping at the first fatal condition. -/
def resolveAll (labels : List ((String × Nat) × Nat)) :
    List (Nat × IntermediateInstruction) → Except JvmError (List Instruction)
  | [] => .ok []
  | x :: xs =>
    match resolveOne labels x with
    | .error e => .error e
    | .ok i =>
      match resolveAll labels xs with
      | .error e => .error e
      | .ok rest => .ok (i :: rest)

/-- MethodBuilder::done: resolve all pending branches (fatal on any
miss), intern the attribute-name strings, assemble the Code attribute
with the tracked max-stack/max-locals, the empty exception table and
the synthesized stack-map table, and append the finished Method record
to the class builder. -/
def MethodBuilder.done (mb : MethodBuilder) : Except JvmError ClassBuilder :=
  match resolveAll mb.labels mb.instructions with
  | .error e => .error e
  | .ok realInstructions =>
    let r1 := define_utf8 "StackMapTable" mb.classfile
    let smt := Attribute.StackMapTable r1.1 mb.stack_frames
    let r2 := define_utf8 "Code" r1.2
    let code := Attribute.Code r2.1 mb.max_stack_depth mb.num_locals
      realInstructions [] [smt]
    let method : Method :=
      ⟨mb.access_flags, mb.name_index, mb.descriptor_index, [code]⟩
    .ok { r2.2 with methods := r2.2.methods ++ [method] }

/-- The instruction stream of the Code attribute of the most recently
finished method. -/
def emittedInstructions (cb : ClassBuilder) : Option (List Instruction) :=
  match cb.methods.getLast? with
  | some m =>
    match m.attributes with
    | [Attribute.Code _ _ _ instrs _ _] => some instrs
    | _ => none
  | none => none

/-- The max-stack field of the Code attribute of the most recently
finished method. -/
def emittedMaxStack (cb : ClassBuilder) : Option Nat :=
  match cb.methods.getLast? with
  | some m =>
    match m.attributes with
    | [Attribute.Code _ maxStack _ _ _ _] => some maxStack
    | _ => none
  | none => none

/-- The max-locals field of the Code attribute of the most recently
finished method. -/
def emittedMaxLocals (cb : ClassBuilder) : Option Nat :=
  match cb.methods.getLast? with
  | some m =>
    match m.attributes with
    | [Attribute.Code _ _ maxLocals _ _ _] => some maxLocals
    | _ => none
  | none => none

/-- Signed 16-bit reading of a wrapped u16 value. -/
def toInt16 (n : Nat) : Int :=
  if n < 32768 then (n : Int) else (n : Int) - 65536

/-- A recorded entry is well shaped when, if pending, it carries a
branch-bearing instruction. -/
def entryWF (x : Nat × IntermediateInstruction) : Bool :=
  match x.2 with
  | .Ready _ => true
  | .Waiting _ _ i => isBranch i

/-- Every pending branch recorded in the builder carries a
branch-bearing shape; the public surface only ever delays branch-family
instructions, so this holds for every reachable state. -/
def pendingWF (mb : MethodBuilder) : Bool :=
  mb.instructions.all entryWF

/-- The four frame kinds the synthesis rule can produce. -/
def fourKinds (f : StackMapFrame) : Bool :=
  match f with
  | .SameFrame _ => true
  | .SameFrameExtended _ => true
  | .SameLocals1StackItemFrame _ _ => true
  | .SameLocals1StackItemFrameExtended _ _ => true
  | _ => false

/-- The recorded instruction offsets form a contiguous chain: starting
from cursor c, each entry is recorded at the running cursor and
advances it by its own encoded size (wrapping u16), ending at fin. -/
def chainFrom : Nat → List (Nat × IntermediateInstruction) → Nat → Bool
  | c, [], fin => decide (fin = c)
  | c, (p, ir) :: rest, fin =>
    decide (p = c) && chainFrom ((c + interSize ir) % 65536) rest fin

/-- No two entries of the pool are related by the source's structural
equality (in the source's scan order). -/
def poolInv (l : List Constant) : Prop :=
  l.Pairwise fun a b => constantEq a b = false

/-- The pool obtained by interning a sequence of constants into an
initially empty class pool. -/
def internAll (cs : List Constant) : List Constant :=
  List.foldl (fun l x => (push_constant x l).2) [] cs

/-- A concrete class builder: public class Foo extending
java/lang/Object. -/
def cb0 : ClassBuilder := ClassBuilder.new 1 "Foo" "java/lang/Object"

/-- A concrete open method builder on cb0: static add(II)I with two
argument slots. -/
def mb0 : MethodBuilder := MethodBuilder.new cb0 9 "add" "(II)I" 2

/-- Backward-branch scenario: a label at offset 0, a one-byte
instruction, then a goto back to the label at offset 1. -/
def mbC1 : MethodBuilder :=
  (run [Op.label "l", Op.iadd, Op.goto "l"] mb0).toOption.getD mb0

/-- The class builder produced by finalizing the backward-branch
scenario. -/
def cbC1 : ClassBuilder := mbC1.done.toOption.getD cb0

/-- Environment-isolation scenario: label L declared in environment 0,
then a goto to L emitted in environment 1. -/
def mbC2 : MethodBuilder :=
  (run [Op.label "L", Op.set_env 1, Op.goto "L"] mb0).toOption.getD mb0

/-- Frame-threshold scenario: a label, exactly 256 one-byte
instructions, then a second label 256 bytes after the first frame. -/
def mbC3 : MethodBuilder :=
  (run ([Op.label "a"] ++ List.replicate 256 Op.fload0 ++ [Op.label "b"])
    mb0).toOption.getD mb0

/-- A builder state whose previous frame sits exactly 257 bytes before
the cursor, with no live stack-top type. -/
def sC3a : MethodBuilder :=
  { mb0 with last_stack_frame_index := some 0, stack_index := 257 }

/-- A builder state with no previous frame and the cursor at byte 10. -/
def sC3b : MethodBuilder :=
  { mb0 with last_stack_frame_index := none, stack_index := 10 }

/-- One sipush call as a total state transformer (the call never
fails). -/
def stepSipush (s : MethodBuilder) : MethodBuilder :=
  pushType .Integer (pushInstr (.Sipush 0 0) s)

/-- A fresh static method builder used for the long-stream scenario. -/
def mbC4 : MethodBuilder := MethodBuilder.new cb0 9 "big" "()V" 0

/-- The builder state after 21847 sipush calls (65541 encoded bytes,
past the 16-bit cursor range). -/
def sC4 : MethodBuilder := stepSipush^[21847] mbC4

/-- A sequence of method-builder calls exercising one label of each
frame-payload kind. -/
def mbC8 : MethodBuilder :=
  (run [Op.label "a", Op.iconst0, Op.label "b"] mb0).toOption.getD mb0

/-- The quiet NaN bit pattern 0x7FC00000. -/
def nanBits : Nat := 2143289344

/-- A pool already holding 65535 pairwise-distinct entries. -/
def bigPool : List Constant :=
  (List.range 65535).map fun n => Constant.Integer (Int.ofNat n)

/-- A class builder whose pool already holds 256 distinct integer
constants. -/
def cbBig : ClassBuilder :=
  ⟨0, 0, 0, (List.range 256).map fun k => Constant.Integer (Int.ofNat k), []⟩

/-- A method builder opened on cbBig, so any fresh constant lands above
pool index 255. -/
def mbBig : MethodBuilder := MethodBuilder.new cbBig 9 "m" "()V" 0

/-- A straight-line add method: iload0; iload1; iadd; ireturn. -/
def mbC10 : MethodBuilder :=
  (run [Op.iload0, Op.iload1, Op.iadd, Op.ireturn] mb0).toOption.getD mb0

/-- The class builder produced by finalizing the straight-line add
method. -/
def cbC10 : ClassBuilder := mbC10.done.toOption.getD cb0

/-- The builder state after iconst0 and sipush on the fresh builder. -/
def mbC4w : MethodBuilder :=
  (run [Op.iconst0, Op.sipush 1 2] mb0).toOption.getD mb0

theorem labelOp_frames (nm : String) (s : MethodBuilder) :
    ∃ f, fourKinds f = true ∧ (labelOp nm s).stack_frames = s.stack_frames ++ [f] := by
  unfold labelOp
  rcases s.stack_types.getLast? with _ | t <;> dsimp only <;> split <;>
    refine ⟨_, ?_, rfl⟩ <;> rfl

set_option maxHeartbeats 4000000 in
/-- Every successful public call leaves the instruction stream alone or
appends one entry at the cursor (advancing it by the entry's size,
wrapping u16); leaves the stack-map frames alone or appends one frame
of the four synthesizable kinds; and never changes the tracked current
or maximal stack depth. -/
theorem step_effects (o : Op) (s s' : MethodBuilder) (h : step o s = .ok s') :
    (s'.instructions = s.instructions ∧ s'.stack_index = s.stack_index ∨
      ∃ ir, s'.instructions = s.instructions ++ [(s.stack_index, ir)] ∧
        s'.stack_index = (s.stack_index + interSize ir) % 65536) ∧
    (s'.stack_frames = s.stack_frames ∨
      ∃ f, fourKinds f = true ∧ s'.stack_frames = s.stack_frames ++ [f]) ∧
    s'.max_stack_depth = s.max_stack_depth ∧
    s'.curr_stack_depth = s.curr_stack_depth := by
  cases o
  case label nm =>
    simp only [step] at h
    obtain ⟨f, hf, he⟩ := labelOp_frames nm s
    injection h with h
    subst h
    exact ⟨Or.inl ⟨rfl, rfl⟩, Or.inr ⟨f, hf, he⟩, rfl, rfl⟩
  case load_constant v =>
    simp only [step] at h
    split at h
    · exact absurd h (by simp)
    · injection h with h
      subst h
      exact ⟨Or.inr ⟨_, rfl, rfl⟩, Or.inl rfl, rfl, rfl⟩
  case load_constant_integer v =>
    simp only [step] at h
    split at h
    · exact absurd h (by simp)
    · injection h with h
      subst h
      exact ⟨Or.inr ⟨_, rfl, rfl⟩, Or.inl rfl, rfl, rfl⟩
  case load_constant_float bits =>
    simp only [step] at h
    split at h
    · exact absurd h (by simp)
    · injection h with h
      subst h
      exact ⟨Or.inr ⟨_, rfl, rfl⟩, Or.inl rfl, rfl, rfl⟩
  case invoke_virtual cls nm desc nargs rv =>
    simp only [step] at h
    injection h with h
    subst h
    cases rv <;> exact ⟨Or.inr ⟨_, rfl, rfl⟩, Or.inl rfl, rfl, rfl⟩
  case invoke_special cls nm desc nargs rv =>
    simp only [step] at h
    injection h with h
    subst h
    cases rv <;> exact ⟨Or.inr ⟨_, rfl, rfl⟩, Or.inl rfl, rfl, rfl⟩
  case invoke_static cls nm desc nargs rv =>
    simp only [step] at h
    injection h with h
    subst h
    cases rv <;> exact ⟨Or.inr ⟨_, rfl, rfl⟩, Or.inl rfl, rfl, rfl⟩
  all_goals
    simp only [step] at h
  all_goals
    injection h with h
  all_goals
    subst h
  all_goals
    first
    | exact ⟨Or.inl ⟨rfl, rfl⟩, Or.inl rfl, rfl, rfl⟩
    | exact ⟨Or.inr ⟨_, rfl, rfl⟩, Or.inl rfl, rfl, rfl⟩

theorem chainFrom_append (ir : IntermediateInstruction) :
    ∀ (l : List (Nat × IntermediateInstruction)) (c e : Nat),
    chainFrom c l e = true →
    chainFrom c (l ++ [(e, ir)]) ((e + interSize ir) % 65536) = true := by
  intro l
  induction l with
  | nil =>
    intro c e h
    simp only [chainFrom, decide_eq_true_eq] at h
    subst h
    simp [chainFrom]
  | cons x rest ih =>
    intro c e h
    obtain ⟨p, ir'⟩ := x
    simp only [chainFrom, Bool.and_eq_true, decide_eq_true_eq] at h ⊢
    exact ⟨h.1, ih _ _ h.2⟩

theorem chainFrom_head :
    ∀ (l : List (Nat × IntermediateInstruction)) (c fin p : Nat)
      (ir : IntermediateInstruction),
    chainFrom c l fin = true → l.get? 0 = some (p, ir) → p = c := by
  intro l c fin p ir h h0
  cases l with
  | nil => simp at h0
  | cons x rest =>
    obtain ⟨q, irq⟩ := x
    simp only [List.get?_cons_zero, Option.some.injEq, Prod.mk.injEq] at h0
    simp only [chainFrom, Bool.and_eq_true, decide_eq_true_eq] at h
    rw [← h0.1]
    exact h.1

theorem chainFrom_get :
    ∀ (l : List (Nat × IntermediateInstruction)) (c fin : Nat),
    chainFrom c l fin = true →
    ∀ (j p p' : Nat) (ir ir' : IntermediateInstruction),
    l.get? j = some (p, ir) → l.get? (j + 1) = some (p', ir') →
    p' = (p + interSize ir) % 65536 := by
  intro l
  induction l with
  | nil =>
    intro c fin h j p p' ir ir' h1 h2
    simp at h1
  | cons x rest ih =>
    intro c fin h j p p' ir ir' h1 h2
    obtain ⟨q, irq⟩ := x
    simp only [chainFrom, Bool.and_eq_true, decide_eq_true_eq] at h
    cases j with
    | zero =>
      simp only [List.get?_cons_zero, Option.some.injEq, Prod.mk.injEq] at h1
      simp only [List.get?_cons_succ] at h2
      have hp := chainFrom_head rest _ fin p' ir' h.2 h2
      rw [hp, ← h1.1, ← h1.2, h.1]
    | succ j =>
      simp only [List.get?_cons_succ] at h1 h2
      exact ih _ fin h.2 j p p' ir ir' h1 h2

theorem isBranch_fillOffset (i : Instruction) (d : Nat) (hb : isBranch i = true) :
    ∃ i', fillOffset i d = some i' := by
  cases i <;> simp [isBranch] at hb <;> exact ⟨_, rfl⟩

theorem fillOffset_operand (i i' : Instruction) (d : Nat)
    (h : fillOffset i d = some i') : branchOperand i' = some d := by
  cases i <;> simp [fillOffset] at h <;> subst h <;> rfl

theorem resolveOne_error_shape (L : List ((String × Nat) × Nat))
    (x : Nat × IntermediateInstruction) (hwf : entryWF x = true) (e : JvmError)
    (h : resolveOne L x = .error e) : e = .UnresolvedLabel := by
  obtain ⟨p, ir⟩ := x
  cases ir with
  | Ready i => simp [resolveOne] at h
  | Waiting l env i =>
    simp only [entryWF] at hwf
    simp only [resolveOne] at h
    cases hl : lookupLabel L l env with
    | none =>
      rw [hl] at h
      injection h with h
      exact h.symm
    | some t =>
      simp only [hl] at h
      obtain ⟨i', hi'⟩ := isBranch_fillOffset i (wsub t p) hwf
      simp only [hi'] at h
      exact absurd h (by simp)

theorem resolveAll_get :
    ∀ (xs : List (Nat × IntermediateInstruction))
      (L : List ((String × Nat) × Nat)) (rs : List Instruction),
    resolveAll L xs = .ok rs →
    ∀ (j : Nat) (x : Nat × IntermediateInstruction), xs.get? j = some x →
    ∃ y, rs.get? j = some y ∧ resolveOne L x = .ok y := by
  intro xs
  induction xs with
  | nil =>
    intro L rs h j x hx
    simp at hx
  | cons a as ih =>
    intro L rs h j x hx
    rw [resolveAll] at h
    cases h1 : resolveOne L a with
    | error e =>
      rw [h1] at h
      exact absurd h (by simp)
    | ok i =>
      rw [h1] at h
      cases h2 : resolveAll L as with
      | error e =>
        rw [h2] at h
        exact absurd h (by simp)
      | ok rest =>
        rw [h2] at h
        injection h with h
        subst h
        cases j with
        | zero =>
          simp only [List.get?_cons_zero, Option.some.injEq] at hx
          subst hx
          exact ⟨i, rfl, h1⟩
        | succ j =>
          simp only [List.get?_cons_succ] at hx ⊢
          exact ih L rest h2 j x hx

theorem resolveAll_unresolved :
    ∀ (xs : List (Nat × IntermediateInstruction))
      (L : List ((String × Nat) × Nat)),
    (∀ x ∈ xs, entryWF x = true) →
    ∀ (j p e : Nat) (l : String) (i : Instruction),
    xs.get? j = some (p, .Waiting l e i) → lookupLabel L l e = none →
    resolveAll L xs = .error .UnresolvedLabel := by
  intro xs
  induction xs with
  | nil =>
    intro L hwf j p e l i hj hl
    simp at hj
  | cons a as ih =>
    intro L hwf j p e l i hj hl
    cases j with
    | zero =>
      simp only [List.get?_cons_zero, Option.some.injEq] at hj
      subst hj
      rw [resolveAll]
      simp only [resolveOne, hl]
    | succ j =>
      simp only [List.get?_cons_succ] at hj
      rw [resolveAll]
      cases h1 : resolveOne L a with
      | error e' =>
        rw [resolveOne_error_shape L a (hwf a (by simp)) e' h1]
      | ok i' =>
        rw [ih L (fun x hx => hwf x (by simp [hx])) j p e l i hj hl]

theorem done_ok (mb : MethodBuilder) (cb' : ClassBuilder) (h : mb.done = .ok cb') :
    ∃ rs, resolveAll mb.labels mb.instructions = .ok rs ∧
      emittedInstructions cb' = some rs ∧
      emittedMaxStack cb' = some mb.max_stack_depth ∧
      emittedMaxLocals cb' = some mb.num_locals := by
  unfold MethodBuilder.done at h
  cases hr : resolveAll mb.labels mb.instructions with
  | error e =>
    rw [hr] at h
    exact absurd h (by simp)
  | ok rs =>
    rw [hr] at h
    injection h with h
    subst h
    refine ⟨rs, rfl, ?_, ?_, ?_⟩ <;>
      simp [emittedInstructions, emittedMaxStack, emittedMaxLocals,
        List.getLast?_concat]

theorem done_error (mb : MethodBuilder) (e : JvmError)
    (h : resolveAll mb.labels mb.instructions = .error e) :
    mb.done = .error e := by
  unfold MethodBuilder.done
  rw [h]

theorem wsub_forward (p t : Nat) (hpt : p ≤ t) (ht : t < 65536) :
    wsub t p = t - p := by
  unfold wsub
  have h1 : t + 65536 - p = (t - p) + 65536 := by omega
  rw [h1, Nat.add_mod_right, Nat.mod_eq_of_lt (by omega)]

theorem toInt16_wsub (p t : Nat) (hp : p < 65536) (ht : t < 65536)
    (h1 : (t : Int) - (p : Int) < 32768) (h2 : -32768 ≤ (t : Int) - (p : Int)) :
    toInt16 (wsub t p) = (t : Int) - (p : Int) := by
  rcases le_or_lt p t with hle | hlt
  · rw [wsub_forward p t hle ht]
    unfold toInt16
    rw [if_pos (by omega)]
    omega
  · have e1 : t + 65536 - p = 65536 - (p - t) := by omega
    unfold wsub toInt16
    rw [e1, Nat.mod_eq_of_lt (by omega), if_neg (by omega)]
    omega

theorem f32Beq_symm (a b : Nat) : f32Beq a b = f32Beq b a := by
  unfold f32Beq
  cases h1 : isNanBits a <;> cases h2 : isNanBits b <;>
    simp only [h1, h2, Bool.false_or, Bool.true_or, Bool.or_true, Bool.or_false,
      if_true, if_false] <;>
    cases h3 : isZeroBits a <;> cases h4 : isZeroBits b <;>
    simp only [h3, h4, Bool.and_self, Bool.false_and, Bool.true_and,
      Bool.and_false, Bool.and_true, if_true, if_false] <;>
    simp [eq_comm]

theorem constantEq_symm (a b : Constant) : constantEq a b = constantEq b a := by
  cases a <;> cases b <;> simp only [constantEq] <;>
    first
    | rfl
    | (apply f32Beq_symm)
    | simp [eq_comm]
    | (simp only [Bool.and_eq_true, decide_eq_true_eq]; constructor <;> omega)

/-- The self-inequality of NaN is the only failure of reflexivity for
the source's structural equality on pool entries. -/
theorem constantEq_refl_of_not_nan (c : Constant)
    (h : ∀ bits, c = .Float bits → isNanBits bits = false) :
    constantEq c c = true := by
  cases c <;> simp [constantEq]
  case Float bits =>
    have hb := h bits rfl
    unfold f32Beq
    rw [hb]
    simp only [Bool.false_or, if_false, Bool.or_self]
    cases hz : isZeroBits bits <;> simp

theorem findConstant_none :
    ∀ (l : List Constant) (c : Constant), (∀ x ∈ l, constantEq c x = false) →
    ∀ (i : Nat), findConstant c l i = none := by
  intro l
  induction l with
  | nil => intro c h i; rfl
  | cons x xs ih =>
    intro c h i
    rw [findConstant, if_neg]
    · exact ih c (fun y hy => h y (by simp [hy])) (i + 1)
    · simp [h x (by simp)]

theorem findConstant_none_mem :
    ∀ (l : List Constant) (c : Constant) (i : Nat), findConstant c l i = none →
    ∀ x ∈ l, constantEq c x = false := by
  intro l
  induction l with
  | nil => intro c i h x hx; simp at hx
  | cons y ys ih =>
    intro c i h x hx
    rw [findConstant] at h
    by_cases he : constantEq c y = true
    · rw [if_pos he] at h
      exact absurd h (by simp)
    · rw [if_neg he] at h
      rcases List.mem_cons.mp hx with rfl | hx'
      · exact Bool.not_eq_true _ ▸ he
      · exact ih c (i + 1) h x hx'

theorem push_constant_not_found (c : Constant) (l : List Constant)
    (h : ∀ x ∈ l, constantEq c x = false) :
    push_constant c l = ((l.length + 1) % 65536, l ++ [c]) := by
  unfold push_constant
  rw [findConstant_none l c h 1]

theorem findConstant_last :
    ∀ (l : List Constant) (c : Constant), (∀ x ∈ l, constantEq c x = false) →
    constantEq c c = true →
    ∀ (i : Nat), findConstant c (l ++ [c]) i = some ((i + l.length) % 65536) := by
  intro l
  induction l with
  | nil =>
    intro c _ hrefl i
    simp only [List.nil_append, findConstant, if_pos hrefl]
    simp
  | cons x xs ih =>
    intro c h hrefl i
    simp only [List.cons_append, findConstant]
    rw [if_neg (by simp [h x (by simp)])]
    simp only [List.append_eq]
    rw [ih c (fun y hy => h y (by simp [hy])) hrefl (i + 1)]
    simp only [List.length_cons]
    congr 1
    omega

theorem push_constant_poolInv (c : Constant) (l : List Constant)
    (h : poolInv l) : poolInv (push_constant c l).2 := by
  unfold push_constant
  cases hf : findConstant c l 1 with
  | some i => exact h
  | none =>
    have hmem := findConstant_none_mem l c 1 hf
    unfold poolInv
    rw [List.pairwise_append]
    refine ⟨h, by simp, ?_⟩
    intro a ha b hb
    simp only [List.mem_singleton] at hb
    subst hb
    rw [constantEq_symm]
    exact hmem a ha

/-- Successful runs preserve any property each successful step
preserves. -/
theorem run_preserve {P : MethodBuilder → Prop}
    (hstep : ∀ o a b, step o a = .ok b → P a → P b) :
    ∀ ops a b, run ops a = .ok b → P a → P b := by
  intro ops
  induction ops with
  | nil =>
    intro a b h hp
    injection h with h
    exact h ▸ hp
  | cons o os ih =>
    intro a b h hp
    simp only [run] at h
    cases hs : step o a with
    | ok s' =>
      rw [hs] at h
      exact ih s' b h (hstep o a s' hs hp)
    | error e =>
      rw [hs] at h
      exact absurd h (by simp)


/-- C1: finalization rewrites every pending branch whose (label,
environment) key resolves at offset t, emitted at offset p, with the
wrapping u16 difference t - p; read as a signed 16-bit value that
operand is exactly the delta t - p whenever it fits, so a forward
branch to a label k encoded bytes later resolves to exactly k (not the
label's absolute position) and a backward branch resolves to the
negative delta. -/
theorem done_branch_signed_delta (mb : MethodBuilder) (cb' : ClassBuilder)
    (hdone : mb.done = .ok cb') (j p t e : Nat) (l : String) (i : Instruction)
    (hj : mb.instructions.get? j = some (p, .Waiting l e i))
    (hl : lookupLabel mb.labels l e = some t)
    (hp16 : p < 65536) (ht16 : t < 65536) :
    ∃ rs i', emittedInstructions cb' = some rs ∧ rs.get? j = some i' ∧
      branchOperand i' = some (wsub t p) ∧
      (p ≤ t → wsub t p = t - p) ∧
      ((t : Int) - (p : Int) < 32768 → -32768 ≤ (t : Int) - (p : Int) →
        toInt16 (wsub t p) = (t : Int) - (p : Int)) := by
  obtain ⟨rs, hres, hemit, _, _⟩ := done_ok mb cb' hdone
  obtain ⟨y, hy, hone⟩ := resolveAll_get mb.instructions mb.labels rs hres j _ hj
  simp only [resolveOne, hl] at hone
  cases hf : fillOffset i (wsub t p) with
  | none =>
    rw [hf] at hone
    exact absurd hone (by simp)
  | some i' =>
    rw [hf] at hone
    injection hone with hone
    subst hone
    refine ⟨rs, i', hemit, hy, fillOffset_operand i i' (wsub t p) hf, ?_, ?_⟩
    · intro hle
      exact wsub_forward p t hle ht16
    · intro hlt hge
      exact toInt16_wsub p t hp16 ht16 hlt hge

/-- Witness for C1 at the concrete backward-branch scenario: the goto
emitted at offset 1 toward the label at offset 0 resolves to operand
65535, whose signed 16-bit reading is -1 = 0 - 1. -/
theorem done_branch_signed_delta_witness :
    ∃ rs i', emittedInstructions cbC1 = some rs ∧ rs.get? 1 = some i' ∧
      branchOperand i' = some (wsub 0 1) ∧
      ((1 : Nat) ≤ 0 → wsub 0 1 = 0 - 1) ∧
      ((0 : Int) - (1 : Int) < 32768 → -32768 ≤ (0 : Int) - (1 : Int) →
        toInt16 (wsub 0 1) = (0 : Int) - (1 : Int)) :=
  done_branch_signed_delta mbC1 cbC1 rfl 1 1 0 0 "l" (.Goto 0) rfl rfl
    (by decide) (by decide)

/-- C2: when a pending branch's (label, environment) key was never
declared -- including a same-named label declared in a different
environment, since the lookup key carries the environment active at
emission -- finalize fails with UnresolvedLabel and no Method record is
produced. -/
theorem done_unresolved (mb : MethodBuilder) (hwf : pendingWF mb = true)
    (j p e : Nat) (l : String) (i : Instruction)
    (hj : mb.instructions.get? j = some (p, .Waiting l e i))
    (hl : lookupLabel mb.labels l e = none) :
    mb.done = .error .UnresolvedLabel ∧ ∀ cb', mb.done ≠ .ok cb' := by
  have hwf' : ∀ x ∈ mb.instructions, entryWF x = true := by
    intro x hx
    exact List.all_eq_true.mp hwf x hx
  have herr := resolveAll_unresolved mb.instructions mb.labels hwf' j p e l i hj hl
  have hd := done_error mb .UnresolvedLabel herr
  refine ⟨hd, fun cb' hok => ?_⟩
  rw [hd] at hok
  exact Except.noConfusion hok

/-- Witness for C2 at the concrete environment-isolation scenario: the
label L lives in environment 0, the goto was emitted in environment 1,
and finalize fails with UnresolvedLabel. -/
theorem done_unresolved_witness :
    mbC2.done = .error .UnresolvedLabel ∧ ∀ cb', mbC2.done ≠ .ok cb' :=
  done_unresolved mbC2 rfl 0 0 1 "L" (.Goto 0) rfl rfl

/-- C8: every stack-map frame ever appended over any successful run is
one of the four synthesized kinds (same-frame, same-frame-extended,
same-locals-1-stack-item, same-locals-1-stack-item-extended); the chop,
append and full variants are never produced. -/
theorem frames_four_kinds (ops : List Op) (mb mb' : MethodBuilder)
    (h0 : ∀ f ∈ mb.stack_frames, fourKinds f = true)
    (hrun : run ops mb = .ok mb') :
    ∀ f ∈ mb'.stack_frames, fourKinds f = true := by
  refine run_preserve (P := fun s => ∀ f ∈ s.stack_frames, fourKinds f = true)
    (fun o a b hs hp => ?_) ops mb mb' hrun h0
  rcases (step_effects o a b hs).2.1 with he | ⟨f, hf, he⟩
  · rw [he]
    exact hp
  · rw [he]
    intro g hg
    rcases List.mem_append.mp hg with hg | hg
    · exact hp g hg
    · rw [List.mem_singleton.mp hg]
      exact hf

/-- Witness for C8 at a concrete run producing one delta-only frame and
one single-stack-item frame, both of the four synthesizable kinds. -/
theorem frames_four_kinds_witness :
    fourKinds (StackMapFrame.SameFrame 0) = true ∧
    fourKinds (StackMapFrame.SameLocals1StackItemFrame 0
      VerificationType.Integer) = true ∧
    mbC8.stack_frames = [StackMapFrame.SameFrame 0,
      StackMapFrame.SameLocals1StackItemFrame 0 VerificationType.Integer] :=
  ⟨frames_four_kinds [Op.label "a", Op.iconst0, Op.label "b"] mb0 mbC8
      (fun f hf => absurd hf (List.not_mem_nil f)) rfl
      (StackMapFrame.SameFrame 0) (by decide),
   frames_four_kinds [Op.label "a", Op.iconst0, Op.label "b"] mb0 mbC8
      (fun f hf => absurd hf (List.not_mem_nil f)) rfl
      (StackMapFrame.SameLocals1StackItemFrame 0 VerificationType.Integer)
      (by decide),
   rfl⟩

/-- C10: the tracked stack depths are never changed by any operation
(the hooks are inert), so after any successful run from a fresh builder
the finalized Code attribute's max-stack field is exactly 0. -/
theorem max_stack_emitted_zero (ops : List Op) (mb mb' : MethodBuilder)
    (h0 : mb.max_stack_depth = 0) (h1 : mb.curr_stack_depth = 0)
    (hrun : run ops mb = .ok mb')
    (cb' : ClassBuilder) (hdone : mb'.done = .ok cb') :
    mb'.max_stack_depth = 0 ∧ mb'.curr_stack_depth = 0 ∧
      emittedMaxStack cb' = some 0 := by
  have hmax : mb'.max_stack_depth = 0 ∧ mb'.curr_stack_depth = 0 := by
    refine run_preserve
      (P := fun s => s.max_stack_depth = 0 ∧ s.curr_stack_depth = 0)
      (fun o a b hs hp => ?_) ops mb mb' hrun ⟨h0, h1⟩
    obtain ⟨_, _, hm, hc⟩ := step_effects o a b hs
    exact ⟨hm.trans hp.1, hc.trans hp.2⟩
  obtain ⟨rs, _, _, hms, _⟩ := done_ok mb' cb' hdone
  rw [hmax.1] at hms
  exact ⟨hmax.1, hmax.2, hms⟩

/-- Witness for C10 at the concrete add method: four instructions are
issued yet the emitted max-stack is 0. -/
theorem max_stack_emitted_zero_witness :
    mbC10.max_stack_depth = 0 ∧ mbC10.curr_stack_depth = 0 ∧
      emittedMaxStack cbC10 = some 0 :=
  max_stack_emitted_zero [Op.iload0, Op.iload1, Op.iadd, Op.ireturn] mb0 mbC10
    rfl rfl rfl cbC10 rfl

set_option maxRecDepth 100000 in
/-- Counterexample to C3 as stated: declaring label b exactly 256 bytes
after the frame of label a records the compact SameFrame with
offset-delta field 255 -- the byte distance minus one -- not the
extended 16-bit record with field 256 the claim demands. -/
theorem label_frame_256_counterexample :
    mbC3.stack_frames = [StackMapFrame.SameFrame 0, StackMapFrame.SameFrame 255] ∧
    StackMapFrame.SameFrame 255 ≠ StackMapFrame.SameFrameExtended 256 ∧
    (255 : Nat) ≠ 256 :=
  ⟨rfl, by decide, by decide⟩

/-- C3 as amended: at every label declaration exactly one frame is
appended; with no live stack-top type its offset-delta field is the
byte distance since method start for the first frame, and the byte
distance since the previous frame minus one for later frames, with the
extended 16-bit record selected exactly when that field exceeds 255 --
so a later label needs to sit at least 257 bytes after the previous
frame to produce the extended form, and exactly 256 bytes yields the
compact form with field 255. -/
theorem label_frame_delta (s : MethodBuilder) (nm : String) (d i : Nat) :
    ((s.last_stack_frame_index = some i ∧ s.stack_index = i + d ∧ 0 < d ∧
      s.stack_index < 65536 ∧ s.stack_types = []) →
      (labelOp nm s).stack_frames = s.stack_frames ++
        [if d ≤ 256 then StackMapFrame.SameFrame (d - 1)
         else StackMapFrame.SameFrameExtended (d - 1)]) ∧
    ((s.last_stack_frame_index = none ∧ s.stack_types = [] ∧
      s.stack_index < 65536) →
      (labelOp nm s).stack_frames = s.stack_frames ++
        [if s.stack_index ≤ 255 then StackMapFrame.SameFrame s.stack_index
         else StackMapFrame.SameFrameExtended s.stack_index]) := by
  constructor
  · rintro ⟨h1, h2, h3, h4, h5⟩
    have e1 : wsub (wsub s.stack_index i) 1 = d - 1 := by
      rw [wsub_forward i s.stack_index (by omega) h4]
      have hd : s.stack_index - i = d := by omega
      rw [hd, wsub_forward 1 d (by omega) (by omega)]
    simp only [labelOp, h1, h5, e1, List.getLast?_nil]
    by_cases hd : d ≤ 256
    · rw [if_pos hd, if_neg (by omega)]
    · rw [if_neg hd, if_pos (by omega)]
  · rintro ⟨h1, h2, h3⟩
    simp only [labelOp, h1, h2, List.getLast?_nil]
    by_cases hs : s.stack_index ≤ 255
    · rw [if_pos hs, if_neg (by omega)]
    · rw [if_neg hs, if_pos (by omega)]

/-- Witness for the amended C3: a later label 257 bytes after the
previous frame yields the extended record with field 256, and a first
label at byte 10 yields the compact record with field 10. -/
theorem label_frame_delta_witness :
    (labelOp "x" sC3a).stack_frames =
      sC3a.stack_frames ++ [StackMapFrame.SameFrameExtended 256] ∧
    (labelOp "x" sC3b).stack_frames =
      sC3b.stack_frames ++ [StackMapFrame.SameFrame 10] := by
  constructor
  · have h := (label_frame_delta sC3a "x" 257 0).1
      ⟨rfl, rfl, by decide, by decide, rfl⟩
    rw [if_neg (by decide)] at h
    exact h
  · have h := (label_frame_delta sC3b "x" 0 0).2 ⟨rfl, rfl, by decide⟩
    rw [if_pos (by decide)] at h
    exact h

theorem run_replicate_sipush :
    ∀ (n : Nat) (s : MethodBuilder),
    run (List.replicate n (Op.sipush 0 0)) s = .ok (stepSipush^[n] s) := by
  intro n
  induction n with
  | zero =>
    intro s
    rfl
  | succ n ih =>
    intro s
    rw [List.replicate_succ]
    show run (List.replicate n (Op.sipush 0 0)) (stepSipush s) =
      .ok (stepSipush^[n + 1] s)
    rw [ih (stepSipush s), Function.iterate_succ_apply]

theorem stepSipush_iter_cursor :
    ∀ (n : Nat) (s : MethodBuilder), s.stack_index < 65536 →
    (stepSipush^[n] s).stack_index = (s.stack_index + 3 * n) % 65536 := by
  intro n
  induction n with
  | zero =>
    intro s hs
    simp [Nat.mod_eq_of_lt hs]
  | succ n ih =>
    intro s hs
    rw [Function.iterate_succ_apply]
    rw [ih (stepSipush s) (Nat.mod_lt _ (by omega))]
    rw [show (stepSipush s).stack_index = (s.stack_index + 3) % 65536 from rfl]
    rw [Nat.mod_add_mod]
    congr 1
    ring

theorem stepSipush_iter_instructions :
    ∀ (n : Nat) (s : MethodBuilder), s.stack_index < 65536 →
    (stepSipush^[n] s).instructions = s.instructions ++
      (List.range n).map (fun k =>
        ((s.stack_index + 3 * k) % 65536,
          IntermediateInstruction.Ready (.Sipush 0 0))) := by
  intro n
  induction n with
  | zero =>
    intro s hs
    simp
  | succ n ih =>
    intro s hs
    rw [Function.iterate_succ_apply]
    rw [ih (stepSipush s) (Nat.mod_lt _ (by omega))]
    rw [show (stepSipush s).instructions = s.instructions ++
      [(s.stack_index, IntermediateInstruction.Ready (.Sipush 0 0))] from rfl]
    rw [show (stepSipush s).stack_index = (s.stack_index + 3) % 65536 from rfl]
    rw [List.append_assoc]
    congr 1
    rw [List.range_succ_eq_map, List.map_cons, List.map_map, List.singleton_append]
    congr 1
    · rw [Nat.mul_zero, Nat.add_zero, Nat.mod_eq_of_lt hs]
    · refine List.map_congr_left fun k _ => ?_
      simp only [Function.comp]
      rw [Nat.mod_add_mod]
      congr 2
      omega

/-- Counterexample to C4 as stated: the byte cursor is a u16, so after
21846 three-byte sipush instructions the next recorded offset wraps:
instruction 21845 sits at offset 65535 while instruction 21846 sits at
offset 2, not 65535 + 3. -/
theorem size_fidelity_counterexample :
    run (List.replicate 21847 (Op.sipush 0 0)) mbC4 = .ok sC4 ∧
    sC4.instructions.get? 21845 =
      some (65535, IntermediateInstruction.Ready (.Sipush 0 0)) ∧
    sC4.instructions.get? 21846 =
      some (2, IntermediateInstruction.Ready (.Sipush 0 0)) ∧
    (2 : Nat) ≠ 65535 + (Instruction.Sipush 0 0).size := by
  have hinstr := stepSipush_iter_instructions 21847 mbC4 (by decide)
  rw [show mbC4.instructions = [] from rfl] at hinstr
  rw [show mbC4.stack_index = 0 from rfl] at hinstr
  rw [List.nil_append] at hinstr
  have hs : sC4.instructions = (List.range 21847).map (fun k =>
      ((0 + 3 * k) % 65536, IntermediateInstruction.Ready (.Sipush 0 0))) := hinstr
  refine ⟨run_replicate_sipush 21847 mbC4, ?_, ?_, by decide⟩
  · rw [hs, List.get?_map, List.get?_range (by norm_num)]
    have e : (0 + 3 * 21845) % 65536 = 65535 := by decide
    simp only [Option.map_some', e]
  · rw [hs, List.get?_map, List.get?_range (by norm_num)]
    have e : (0 + 3 * 21846) % 65536 = 2 := by decide
    simp only [Option.map_some', e]

/-- C4 as amended: over any successful run the recorded offset of
instruction i+1 equals the offset of instruction i plus its fixed
encoded size reduced modulo 2 ^ 16 (the cursor is a u16, so the plain
sum only holds while the stream stays below 65536 bytes); each
instruction's size is opcode-determined, between 1 and 3 bytes, and
independent of its operand values. -/
theorem offsets_chain (ops : List Op) (mb mb' : MethodBuilder)
    (h0 : chainFrom 0 mb.instructions mb.stack_index = true)
    (hrun : run ops mb = .ok mb') :
    (∀ (j p p' : Nat) (ir ir' : IntermediateInstruction),
      mb'.instructions.get? j = some (p, ir) →
      mb'.instructions.get? (j + 1) = some (p', ir') →
      p' = (p + interSize ir) % 65536) ∧
    (∀ i : Instruction, 1 ≤ i.size ∧ i.size ≤ 3) ∧
    (∀ a b c d : Nat,
      (Instruction.Fload a).size = (Instruction.Fload b).size ∧
      (Instruction.Fstore a).size = (Instruction.Fstore b).size ∧
      (Instruction.Istore a).size = (Instruction.Istore b).size ∧
      (Instruction.Bipush a).size = (Instruction.Bipush b).size ∧
      (Instruction.Sipush a c).size = (Instruction.Sipush b d).size ∧
      (Instruction.Iload a).size = (Instruction.Iload b).size ∧
      (Instruction.LoadConstant a).size = (Instruction.LoadConstant b).size ∧
      (Instruction.IfEq a).size = (Instruction.IfEq b).size ∧
      (Instruction.IfNe a).size = (Instruction.IfNe b).size ∧
      (Instruction.IfLt a).size = (Instruction.IfLt b).size ∧
      (Instruction.IfGe a).size = (Instruction.IfGe b).size ∧
      (Instruction.IfGt a).size = (Instruction.IfGt b).size ∧
      (Instruction.IfLe a).size = (Instruction.IfLe b).size ∧
      (Instruction.IfIcmpEq a).size = (Instruction.IfIcmpEq b).size ∧
      (Instruction.IfIcmpNe a).size = (Instruction.IfIcmpNe b).size ∧
      (Instruction.IfIcmpLt a).size = (Instruction.IfIcmpLt b).size ∧
      (Instruction.IfIcmpGe a).size = (Instruction.IfIcmpGe b).size ∧
      (Instruction.IfIcmpGt a).size = (Instruction.IfIcmpGt b).size ∧
      (Instruction.IfIcmpLe a).size = (Instruction.IfIcmpLe b).size ∧
      (Instruction.Goto a).size = (Instruction.Goto b).size ∧
      (Instruction.GetStatic a).size = (Instruction.GetStatic b).size ∧
      (Instruction.InvokeVirtual a).size = (Instruction.InvokeVirtual b).size ∧
      (Instruction.InvokeSpecial a).size = (Instruction.InvokeSpecial b).size ∧
      (Instruction.InvokeStatic a).size = (Instruction.InvokeStatic b).size ∧
      (Instruction.New a c).size = (Instruction.New b d).size ∧
      (Instruction.Astore a).size = (Instruction.Astore b).size ∧
      (Instruction.Aload a).size = (Instruction.Aload b).size) := by
  refine ⟨?_, ?_, ?_⟩
  · have hchain : chainFrom 0 mb'.instructions mb'.stack_index = true := by
      refine run_preserve
        (P := fun s => chainFrom 0 s.instructions s.stack_index = true)
        (fun o a b hs hp => ?_) ops mb mb' hrun h0
      rcases (step_effects o a b hs).1 with ⟨hi, hc⟩ | ⟨ir, hi, hc⟩
      · rw [hi, hc]
        exact hp
      · rw [hi, hc]
        exact chainFrom_append ir a.instructions 0 a.stack_index hp
    exact fun j p p' ir ir' h1 h2 =>
      chainFrom_get mb'.instructions 0 mb'.stack_index hchain j p p' ir ir' h1 h2
  · intro i
    cases i <;> simp [Instruction.size]
  · intro a b c d
    simp [Instruction.size]

/-- Witness for the amended C4 at a concrete two-instruction run:
iconst0 at offset 0 then sipush at offset 1. -/
theorem offsets_chain_witness :
    (∀ (j p p' : Nat) (ir ir' : IntermediateInstruction),
      mbC4w.instructions.get? j = some (p, ir) →
      mbC4w.instructions.get? (j + 1) = some (p', ir') →
      p' = (p + interSize ir) % 65536) ∧
    (∀ i : Instruction, 1 ≤ i.size ∧ i.size ≤ 3) ∧
    (∀ a b c d : Nat,
      (Instruction.Fload a).size = (Instruction.Fload b).size ∧
      (Instruction.Fstore a).size = (Instruction.Fstore b).size ∧
      (Instruction.Istore a).size = (Instruction.Istore b).size ∧
      (Instruction.Bipush a).size = (Instruction.Bipush b).size ∧
      (Instruction.Sipush a c).size = (Instruction.Sipush b d).size ∧
      (Instruction.Iload a).size = (Instruction.Iload b).size ∧
      (Instruction.LoadConstant a).size = (Instruction.LoadConstant b).size ∧
      (Instruction.IfEq a).size = (Instruction.IfEq b).size ∧
      (Instruction.IfNe a).size = (Instruction.IfNe b).size ∧
      (Instruction.IfLt a).size = (Instruction.IfLt b).size ∧
      (Instruction.IfGe a).size = (Instruction.IfGe b).size ∧
      (Instruction.IfGt a).size = (Instruction.IfGt b).size ∧
      (Instruction.IfLe a).size = (Instruction.IfLe b).size ∧
      (Instruction.IfIcmpEq a).size = (Instruction.IfIcmpEq b).size ∧
      (Instruction.IfIcmpNe a).size = (Instruction.IfIcmpNe b).size ∧
      (Instruction.IfIcmpLt a).size = (Instruction.IfIcmpLt b).size ∧
      (Instruction.IfIcmpGe a).size = (Instruction.IfIcmpGe b).size ∧
      (Instruction.IfIcmpGt a).size = (Instruction.IfIcmpGt b).size ∧
      (Instruction.IfIcmpLe a).size = (Instruction.IfIcmpLe b).size ∧
      (Instruction.Goto a).size = (Instruction.Goto b).size ∧
      (Instruction.GetStatic a).size = (Instruction.GetStatic b).size ∧
      (Instruction.InvokeVirtual a).size = (Instruction.InvokeVirtual b).size ∧
      (Instruction.InvokeSpecial a).size = (Instruction.InvokeSpecial b).size ∧
      (Instruction.InvokeStatic a).size = (Instruction.InvokeStatic b).size ∧
      (Instruction.New a c).size = (Instruction.New b d).size ∧
      (Instruction.Astore a).size = (Instruction.Astore b).size ∧
      (Instruction.Aload a).size = (Instruction.Aload b).size) :=
  offsets_chain [Op.iconst0, Op.sipush 1 2] mb0 mbC4w rfl rfl

theorem internAll_go_inv :
    ∀ (cs l : List Constant), poolInv l →
    poolInv (List.foldl (fun acc x => (push_constant x acc).2) l cs) := by
  intro cs
  induction cs with
  | nil =>
    intro l h
    exact h
  | cons c cs ih =>
    intro l h
    exact ih _ (push_constant_poolInv c l h)

/-- Counterexample to C5 as stated: the source deduplicates with Rust's
derived PartialEq, under which an f32 NaN payload is unequal to itself;
interning the quiet-NaN float twice returns index 1 then index 2, grows
the pool by two across the two calls, and leaves two structurally
identical entries (same variant, same payload bits) in the pool. -/
theorem interning_nan_counterexample :
    (push_constant (Constant.Float nanBits) []).1 = 1 ∧
    (push_constant (Constant.Float nanBits)
      (push_constant (Constant.Float nanBits) []).2).1 = 2 ∧
    (push_constant (Constant.Float nanBits)
      (push_constant (Constant.Float nanBits) []).2).2 =
      [Constant.Float nanBits, Constant.Float nanBits] ∧
    (1 : Nat) ≠ 2 := by
  refine ⟨by decide, by decide, by decide, by decide⟩

/-- C5 as amended: for every constant that is equal to itself under the
source's equality (every constant except NaN floats), interning twice
returns the same 1-based index both times, the pool grows by at most
one across the two calls, and after any sequence of define operations
no two pool entries are related by the source's structural equality. -/
theorem push_constant_interning (c : Constant) (pool : List Constant)
    (cs : List Constant) :
    (constantEq c c = true →
      (push_constant c (push_constant c pool).2).1 = (push_constant c pool).1 ∧
      (push_constant c (push_constant c pool).2).2.length ≤ pool.length + 1) ∧
    poolInv (internAll cs) := by
  constructor
  · intro hrefl
    cases hf : findConstant c pool 1 with
    | some i =>
      unfold push_constant
      rw [hf]
      simp only [push_constant, hf]
      exact ⟨trivial, Nat.le_succ _⟩
    | none =>
      have hmem := findConstant_none_mem pool c 1 hf
      have h1 : push_constant c pool = ((pool.length + 1) % 65536, pool ++ [c]) :=
        push_constant_not_found c pool hmem
      rw [h1]
      have h2 : findConstant c (pool ++ [c]) 1 = some ((1 + pool.length) % 65536) :=
        findConstant_last pool c hmem hrefl 1
      unfold push_constant
      rw [h2]
      simp only [List.length_append, List.length_singleton]
      constructor
      · congr 1
        omega
      · omega
  · exact internAll_go_inv cs [] List.Pairwise.nil

/-- Witness for the amended C5: interning Integer 5 twice into an empty
pool yields index 1 both times and a one-entry pool, and a concrete
define sequence leaves a pairwise-inequal pool. -/
theorem push_constant_interning_witness :
    ((push_constant (Constant.Integer 5)
        (push_constant (Constant.Integer 5) []).2).1 =
      (push_constant (Constant.Integer 5) []).1 ∧
      (push_constant (Constant.Integer 5)
        (push_constant (Constant.Integer 5) []).2).2.length ≤
        List.length ([] : List Constant) + 1) ∧
    poolInv (internAll [Constant.Integer 5, Constant.Integer 5, Constant.Utf8 "a"]) :=
  ⟨(push_constant_interning (Constant.Integer 5) []
      [Constant.Integer 5, Constant.Integer 5, Constant.Utf8 "a"]).1 (by decide),
   (push_constant_interning (Constant.Integer 5) []
      [Constant.Integer 5, Constant.Integer 5, Constant.Utf8 "a"]).2⟩

/-- C6 against the code: ClassBuilder::push_constant performs no
16-bit-overflow check at all.  Interning a fresh constant into a pool
already holding 65535 entries does not fail: it appends and returns the
new length truncated to u16, which wraps to pool index 0 -- an index
the 1-indexed pool cannot even address.  The ConstantPoolOverflow
condition the claim describes does not exist on the interning path
(only the 8-bit load-constant check exists). -/
theorem push_constant_overflow_wraps :
    (push_constant (Constant.Utf8 "x") bigPool).1 = 0 ∧
    (push_constant (Constant.Utf8 "x") bigPool).2.length = 65536 ∧
    bigPool.length = 65535 := by
  have hmem : ∀ x ∈ bigPool, constantEq (Constant.Utf8 "x") x = false := by
    intro x hx
    obtain ⟨n, _, rfl⟩ := List.mem_map.mp hx
    rfl
  have hlen : bigPool.length = 65535 := by
    unfold bigPool
    rw [List.length_map, List.length_range]
  have h := push_constant_not_found (Constant.Utf8 "x") bigPool hmem
  refine ⟨?_, ?_, hlen⟩
  · rw [h, hlen]
  · rw [h, List.length_append, hlen]
    rfl

/-- C7: each load-constant operation (string, integer, float) interns
its operand and then checks the returned pool index against the 8-bit
bound: above 255 it aborts at the call site with the overflow condition
and no instruction is appended; at or below 255 it appends a
LoadConstant instruction carrying exactly that index. -/
theorem load_constant_range_check (mb : MethodBuilder) (v : String) (n : Int)
    (bits : Nat) :
    (255 < (define_string v mb.classfile).1 →
      step (Op.load_constant v) mb = .error .ConstantPoolOverflow) ∧
    ((define_string v mb.classfile).1 ≤ 255 →
      ∃ mb', step (Op.load_constant v) mb = .ok mb' ∧
        mb'.instructions = mb.instructions ++
          [(mb.stack_index, .Ready (.LoadConstant (define_string v mb.classfile).1))] ∧
        mb'.classfile = (define_string v mb.classfile).2) ∧
    (255 < (define_integer n mb.classfile).1 →
      step (Op.load_constant_integer n) mb = .error .ConstantPoolOverflow) ∧
    ((define_integer n mb.classfile).1 ≤ 255 →
      ∃ mb', step (Op.load_constant_integer n) mb = .ok mb' ∧
        mb'.instructions = mb.instructions ++
          [(mb.stack_index, .Ready (.LoadConstant (define_integer n mb.classfile).1))] ∧
        mb'.classfile = (define_integer n mb.classfile).2) ∧
    (255 < (define_float bits mb.classfile).1 →
      step (Op.load_constant_float bits) mb = .error .ConstantPoolOverflow) ∧
    ((define_float bits mb.classfile).1 ≤ 255 →
      ∃ mb', step (Op.load_constant_float bits) mb = .ok mb' ∧
        mb'.instructions = mb.instructions ++
          [(mb.stack_index, .Ready (.LoadConstant (define_float bits mb.classfile).1))] ∧
        mb'.classfile = (define_float bits mb.classfile).2) := by
  refine ⟨fun h => ?_, fun h => ?_, fun h => ?_, fun h => ?_, fun h => ?_, fun h => ?_⟩
  · simp only [step]
    rw [if_pos h]
  · simp only [step]
    rw [if_neg (by omega)]
    exact ⟨_, rfl, rfl, rfl⟩
  · simp only [step]
    rw [if_pos h]
  · simp only [step]
    rw [if_neg (by omega)]
    exact ⟨_, rfl, rfl, rfl⟩
  · simp only [step]
    rw [if_pos h]
  · simp only [step]
    rw [if_neg (by omega)]
    exact ⟨_, rfl, rfl, rfl⟩

set_option maxRecDepth 100000 in
/-- Witness for C7: on a builder whose pool already holds 258 entries,
each of the three load-constant forms aborts with the overflow
condition; on the small fresh builder each succeeds and appends
LoadConstant with the interned index. -/
theorem load_constant_range_check_witness :
    step (Op.load_constant "x") mbBig = .error .ConstantPoolOverflow ∧
    (∃ mb', step (Op.load_constant "y") mb0 = .ok mb' ∧
      mb'.instructions = mb0.instructions ++
        [(mb0.stack_index, .Ready (.LoadConstant (define_string "y" mb0.classfile).1))] ∧
      mb'.classfile = (define_string "y" mb0.classfile).2) ∧
    step (Op.load_constant_integer 999) mbBig = .error .ConstantPoolOverflow ∧
    (∃ mb', step (Op.load_constant_integer 42) mb0 = .ok mb' ∧
      mb'.instructions = mb0.instructions ++
        [(mb0.stack_index, .Ready (.LoadConstant (define_integer 42 mb0.classfile).1))] ∧
      mb'.classfile = (define_integer 42 mb0.classfile).2) ∧
    step (Op.load_constant_float 5) mbBig = .error .ConstantPoolOverflow ∧
    (∃ mb', step (Op.load_constant_float 3) mb0 = .ok mb' ∧
      mb'.instructions = mb0.instructions ++
        [(mb0.stack_index, .Ready (.LoadConstant (define_float 3 mb0.classfile).1))] ∧
      mb'.classfile = (define_float 3 mb0.classfile).2) :=
  ⟨(load_constant_range_check mbBig "x" 999 5).1 (by decide),
   (load_constant_range_check mb0 "y" 42 3).2.1 (by decide),
   (load_constant_range_check mbBig "x" 999 5).2.2.1 (by decide),
   (load_constant_range_check mb0 "y" 42 3).2.2.2.1 (by decide),
   (load_constant_range_check mbBig "x" 999 5).2.2.2.2.1 (by decide),
   (load_constant_range_check mb0 "y" 42 3).2.2.2.2.2 (by decide)⟩

/-- C9 against the code: the reference stores astore0..astore3 and
astore never call increase_locals (their bodies call the inert
stack-depth hook instead, mirroring the aload family), so num_locals is
unchanged by every reference store, while the integer store istore0
does increment it by one.  The claim's statement that every
store-to-local operation, reference stores included, increments the
locals counter is violated by the code. -/
theorem astore_does_not_count_locals (mb : MethodBuilder) (r : Nat) :
    (∃ a, step Op.astore0 mb = .ok a ∧ a.num_locals = mb.num_locals) ∧
    (∃ a, step Op.astore1 mb = .ok a ∧ a.num_locals = mb.num_locals) ∧
    (∃ a, step Op.astore2 mb = .ok a ∧ a.num_locals = mb.num_locals) ∧
    (∃ a, step Op.astore3 mb = .ok a ∧ a.num_locals = mb.num_locals) ∧
    (∃ a, step (Op.astore r) mb = .ok a ∧ a.num_locals = mb.num_locals) ∧
    (∃ a, step Op.istore0 mb = .ok a ∧
      a.num_locals = (mb.num_locals + 1) % 65536) :=
  ⟨⟨_, rfl, rfl⟩, ⟨_, rfl, rfl⟩, ⟨_, rfl, rfl⟩, ⟨_, rfl, rfl⟩,
   ⟨_, rfl, rfl⟩, ⟨_, rfl, rfl⟩⟩

end JvmAsm
